import Mathlib

/-!
Shallow embedding of the `ucsf-nmr` crate (file `src/lib.rs`): a parser for the
UCSF NMR spectrum format together with its tile-geometry engine, coordinate
mapper and reconstruction utilities, plus proofs of the specified properties.

Bytes are modelled as natural numbers below 256; 32-bit sample values are kept
as their big-endian bit patterns (`Nat` below `2^32`), since no claim depends
on floating-point semantics of the samples themselves.  Rust panics
(`unimplemented!`, slice out of range, failing asserts) are modelled as `none`;
`Result` is modelled as `Except`.
-/

/-- Error kind returned by the parser (`UcsfError` in the source). -/
inductive UcsfError where
  | UnsupportedFormat
  | UnsupportedComponents
  | Parsing
deriving DecidableEq

/-- A byte of the input stream (a natural number below 256). -/
abbrev Byte := Nat

/-- Big-endian decoding of two bytes (`be_u16`). -/
def beU16 (a b : Byte) : Nat := a * 256 + b

/-- Big-endian decoding of four bytes (`be_u32`; also the bit pattern read by `be_f32`). -/
def beU32 (a b c d : Byte) : Nat := ((a * 256 + b) * 256 + c) * 256 + d

/-- nom `take n`: consume exactly `n` bytes, failing when the input is shorter. -/
def takeN (n : Nat) (input : List Byte) : Option (List Byte × List Byte) :=
  if n ≤ input.length then some (input.take n, input.drop n) else none

/-- nom `tag t`: consume an exact byte sequence, failing on mismatch or truncation. -/
def tagBytes (t : List Byte) (input : List Byte) : Option (List Byte) :=
  if input.take t.length = t then some (input.drop t.length) else none

/-- The magic token `b"UCSF NMR"`. -/
def magicBytes : List Byte := [85, 67, 83, 70, 32, 78, 77, 82]

/-- The fixed 180-byte file header (`Header` in the source). -/
structure Header where
  dimensions : Nat
  components : Nat
  format_version : Nat
  remainder : List Byte
deriving DecidableEq

/-- Source `Header::parse_raw`: nom tuple `(tag b"UCSF NMR", take 2, be_u8, be_u8, be_u16, take 166)`.
The two skipped bytes and the magic are not returned (the source discards them in `map`). -/
def Header.parse_raw (input : List Byte) :
    Option (List Byte × (Nat × Nat × Nat × List Byte)) :=
  match tagBytes magicBytes input with
  | none => none
  | some r0 =>
    match takeN 2 r0 with
    | none => none
    | some (_, r1) =>
      match takeN 1 r1 with
      | none => none
      | some (ds, r2) =>
        match takeN 1 r2 with
        | none => none
        | some (cs, r3) =>
          match takeN 2 r3 with
          | none => none
          | some (vs, r4) =>
            match takeN 166 r4 with
            | none => none
            | some (remainder, r5) =>
              some (r5, (ds.getD 0 0, cs.getD 0 0,
                beU16 (vs.getD 0 0) (vs.getD 1 0), remainder))

/-- Source `Header::parse`: raw parse, then validation of component count and format version. -/
def Header.parse (input : List Byte) : Except UcsfError (List Byte × Header) :=
  match Header.parse_raw input with
  | none => .error .Parsing
  | some (rem, (dimensions, components, format_version, remainder)) =>
    if components ≠ 1 then .error .UnsupportedComponents
    else if format_version ≠ 2 then .error .UnsupportedFormat
    else .ok (rem, ⟨dimensions, components, format_version, remainder⟩)

/-- One fixed 128-byte axis header (`AxisHeader` in the source).  The nucleus label is
kept as the raw bytes up to the first NUL; the UTF-8 decoding and whitespace trimming
of the source are metadata-only and not modelled.  `frequency`, `spectral_width` and
`center` hold the big-endian bit patterns of the stored `f32` values. -/
structure AxisHeader where
  nucleus_name : List Byte
  data_points : Nat
  tile_size : Nat
  frequency : Nat
  spectral_width : Nat
  center : Nat
  remainder : List Byte
deriving DecidableEq

/-- Source `AxisHeader::parse_raw`: nom tuple
`(take 8, be_u32, take 4, be_u32, be_f32, be_f32, be_f32, take 96)`. -/
def AxisHeader.parse_raw (input : List Byte) :
    Option (List Byte × (List Byte × Nat × Nat × Nat × Nat × Nat × List Byte)) :=
  match takeN 8 input with
  | none => none
  | some (nucleus, r0) =>
    match takeN 4 r0 with
    | none => none
    | some (dp, r1) =>
      match takeN 4 r1 with
      | none => none
      | some (_, r2) =>
        match takeN 4 r2 with
        | none => none
        | some (ts, r3) =>
          match takeN 4 r3 with
          | none => none
          | some (fr, r4) =>
            match takeN 4 r4 with
            | none => none
            | some (sw, r5) =>
              match takeN 4 r5 with
              | none => none
              | some (ce, r6) =>
                match takeN 96 r6 with
                | none => none
                | some (remainder, r7) =>
                  some (r7, (nucleus,
                    beU32 (dp.getD 0 0) (dp.getD 1 0) (dp.getD 2 0) (dp.getD 3 0),
                    beU32 (ts.getD 0 0) (ts.getD 1 0) (ts.getD 2 0) (ts.getD 3 0),
                    beU32 (fr.getD 0 0) (fr.getD 1 0) (fr.getD 2 0) (fr.getD 3 0),
                    beU32 (sw.getD 0 0) (sw.getD 1 0) (sw.getD 2 0) (sw.getD 3 0),
                    beU32 (ce.getD 0 0) (ce.getD 1 0) (ce.getD 2 0) (ce.getD 3 0),
                    remainder))

/-- Source `AxisHeader::parse`: raw parse plus extraction of the nucleus label up to the
first NUL byte (the source's `split(0).next()`). -/
def AxisHeader.parse (input : List Byte) : Except UcsfError (List Byte × AxisHeader) :=
  match AxisHeader.parse_raw input with
  | none => .error .Parsing
  | some (rem, (nucleus, data_points, tile_size, frequency, spectral_width, center, remainder)) =>
    .ok (rem, ⟨nucleus.takeWhile (· ≠ 0), data_points, tile_size,
      frequency, spectral_width, center, remainder⟩)

/-- Source `AxisHeader::num_tiles`: amount of tiles along this axis,
`(data_points + tile_size - 1) / tile_size` (rounding up for zero-padded tiles). -/
def AxisHeader.num_tiles (a : AxisHeader) : Nat :=
  (a.data_points + a.tile_size - 1) / a.tile_size

/-- Source `AxisHeader::padded_size`: size of the axis including zero-padding. -/
def AxisHeader.padded_size (a : AxisHeader) : Nat :=
  a.num_tiles * a.tile_size

/-- Source `AxisHeader::tile_is_padded`: whether tile `tile_n` has padding along this axis. -/
def AxisHeader.tile_is_padded (a : AxisHeader) (tile_n : Nat) : Bool :=
  a.data_points / a.tile_size ≤ tile_n

/-- Source `AxisHeader::tile_padding`: amount of padding for tile `tile_n` along this axis. -/
def AxisHeader.tile_padding (a : AxisHeader) (tile_n : Nat) : Nat :=
  match a.tile_is_padded tile_n with
  | false => 0
  | true => a.padded_size - a.data_points

/-- The decoded file (`UcsfFile` in the source); `data` holds the big-endian bit
patterns of the stored `f32` samples, in native tile-major order. -/
structure UcsfFile where
  header : Header
  axis_headers : List AxisHeader
  data : List Nat
deriving DecidableEq

/-- Source `UcsfFile::calculate_data_size`: byte size of the sample stream,
product of the padded axis sizes times 4 (each data point is an `f32`). -/
def UcsfFile.calculate_data_size (axis_headers : List AxisHeader) : Nat :=
  (axis_headers.map (fun axis => axis.padded_size)).prod * 4

/-- The source's loop `for _ in 0..header.dimensions { AxisHeader::parse(...) }`,
threading the remaining bytes and collecting the axis headers in order. -/
def parseAxes : Nat → List Byte → Except UcsfError (List Byte × List AxisHeader)
  | 0, rem => .ok (rem, [])
  | n + 1, rem =>
    match AxisHeader.parse rem with
    | .error e => .error e
    | .ok (rem1, axis) =>
      match parseAxes n rem1 with
      | .error e => .error e
      | .ok (rem2, rest) => .ok (rem2, axis :: rest)

/-- The source's `data.chunks(4).map(f32::from_be_bytes)`: decode the sample bytes
four at a time (the byte count handed to it is always a multiple of 4). -/
def chunks4 : List Byte → List Nat
  | a :: b :: c :: d :: rest => beU32 a b c d :: chunks4 rest
  | _ => []

/-- Source `UcsfFile::parse`: header, `dimensions` axis headers, then exactly
`calculate_data_size` bytes of samples. -/
def UcsfFile.parse (input : List Byte) : Except UcsfError (List Byte × UcsfFile) :=
  match Header.parse input with
  | .error e => .error e
  | .ok (rem, header) =>
    match parseAxes header.dimensions rem with
    | .error e => .error e
    | .ok (rem1, axis_headers) =>
      match takeN (UcsfFile.calculate_data_size axis_headers) rem1 with
      | none => .error .Parsing
      | some (data_bytes, rem2) =>
        .ok (rem2, ⟨header, axis_headers, chunks4 data_bytes⟩)

/-- Source `UcsfFile::axis_tiles`: the amount of tiles along each axis. -/
def UcsfFile.axis_tiles (f : UcsfFile) : List Nat :=
  f.axis_headers.map (fun axis => axis.num_tiles)

/-- Source `UcsfFile::axis_tile_sizes`: the amount of data points in a tile along all axes. -/
def UcsfFile.axis_tile_sizes (f : UcsfFile) : List Nat :=
  f.axis_headers.map (fun axis => axis.tile_size)

/-- Source `UcsfFile::axis_sizes`: the true (unpadded) sizes for all axes. -/
def UcsfFile.axis_sizes (f : UcsfFile) : List Nat :=
  f.axis_headers.map (fun axis => axis.data_points)

/-- Source `multi_dim_position`: position in a flat array from multi-dimension index and
dimension sizes.  The source asserts `sizes.len() == indices.len()`; the theorems
below carry that as a hypothesis.  Faithful to the source's loop, including the
quirk that a zero product of trailing sizes adds the bare index. -/
def multi_dim_position (sizes indices : List Nat) : Nat :=
  (List.range sizes.length).foldl
    (fun pos dim =>
      let subdimensions := sizes.length - (dim + 1)
      let subdimensions_size : Nat :=
        if 1 ≤ subdimensions then (sizes.drop (dim + 1)).prod else 0
      let dim_index := indices.getD dim 0
      match subdimensions_size with
      | 0 => pos + dim_index
      | s => pos + dim_index * s)
    0

/-- Source `multi_dim_index`: multi-dimension index from a flat position.  The source
implements only the 2- and 3-dimensional cases and panics (`unimplemented!`)
otherwise, modelled as `none`. -/
def multi_dim_index (sizes : List Nat) (pos : Nat) : Option (List Nat) :=
  match sizes with
  | [_, s1] => some [pos / s1, pos % s1]
  | [_, s1, s2] =>
    some [pos / (s1 * s2), (pos % (s1 * s2)) / s2, (pos % (s1 * s2)) % s2]
  | _ => none

/-- A view over one tile (`Tile` in the source); `data` is the slice the iterator
hands out, copied out of the file's buffer. -/
structure Tile where
  axis_lengths : List Nat
  axis_starts : List Nat
  data : List Nat
deriving DecidableEq

/-- Body of `<Tiles as Iterator>::next` for a given `next_index`: `none` models
both iterator exhaustion and the panics (`multi_dim_index` on an unsupported
dimension count, slice out of range) — the surrounding theorems distinguish the
cases through `next_index < tiles_total`. -/
def UcsfFile.tileAt (f : UcsfFile) (next_index : Nat) : Option Tile :=
  let tiles_per_axis := f.axis_tiles
  let tiles_total := tiles_per_axis.prod
  if tiles_total ≤ next_index then none
  else
    match multi_dim_index tiles_per_axis next_index with
    | none => none
    | some tile_indices =>
      let axis_tile_sizes := f.axis_tile_sizes
      let this_tile_axis_lens := List.zipWith
        (fun (tile_size : Nat) (p : Nat × AxisHeader) => tile_size - p.2.tile_padding p.1)
        axis_tile_sizes (tile_indices.zip f.axis_headers)
      let axis_starts := List.zipWith (fun tile_size tile_index => tile_size * tile_index)
        axis_tile_sizes tile_indices
      let tile_data_points := this_tile_axis_lens.prod
      let data_range_start := tile_data_points * next_index
      let data_range_end := data_range_start + tile_data_points
      if data_range_end ≤ f.data.length then
        some ⟨this_tile_axis_lens, axis_starts,
          (f.data.drop data_range_start).take tile_data_points⟩
      else none

/-- The item `<AbsolutePosValIter as Iterator>::next` computes at index `i`
(for `i` below the tile's data length): relative position from `multi_dim_index`,
shifted by the tile's `axis_starts`.  `none` models the `unimplemented!` panic. -/
def Tile.absItem (t : Tile) (i : Nat) : Option (List Nat × Nat) :=
  match multi_dim_index t.axis_lengths i with
  | none => none
  | some axis_rel =>
    some (List.zipWith (fun axis_relative axis_start => axis_relative + axis_start)
      axis_rel t.axis_starts, t.data.getD i 0)

/-- Collect `g 0, g 1, ..., g (n-1)`, failing when any item fails. -/
def collectRange (g : Nat → Option α) : Nat → Option (List α)
  | 0 => some []
  | n + 1 =>
    match collectRange g n, g n with
    | some l, some b => some (l ++ [b])
    | _, _ => none

/-- Source `Tile::iter_with_abolute_pos`, collected into a list: one `(coordinates, value)`
pair per sample of the tile's data slice. -/
def Tile.iter_with_abolute_pos (t : Tile) : Option (List (List Nat × Nat)) :=
  collectRange t.absItem t.data.length

/-- The whole `Tiles` iterator collected into a list (`UcsfFile::tiles`). -/
def UcsfFile.tilesList (f : UcsfFile) : Option (List Tile) :=
  collectRange f.tileAt f.axis_tiles.prod

/-- The source's `data[pos] = value`, panicking (`none`) when out of bounds. -/
def writeAt (data : List Nat) (pos val : Nat) : Option (List Nat) :=
  if pos < data.length then some (data.set pos val) else none

/-- The inner loop of `UcsfFile::data_continous`: write every (position, value)
pair of one tile into the flat buffer. -/
def writePairs (sizes : List Nat) : List Nat → List (List Nat × Nat) → Option (List Nat)
  | data, [] => some data
  | data, (axis_indices, value) :: rest =>
    match writeAt data (multi_dim_position sizes axis_indices) value with
    | none => none
    | some data1 => writePairs sizes data1 rest

/-- The outer loop of `UcsfFile::data_continous` over the tiles. -/
def writeTiles (sizes : List Nat) : List Nat → List Tile → Option (List Nat)
  | data, [] => some data
  | data, tile :: rest =>
    match tile.iter_with_abolute_pos with
    | none => none
    | some pairs =>
      match writePairs sizes data pairs with
      | none => none
      | some data1 => writeTiles sizes data1 rest

/-- Source `UcsfFile::data_continous`: a zero-initialised buffer of `calculate_data_size`
elements, into which every tile's samples are written at
`multi_dim_position(axis_sizes, absolute_indices)`. -/
def UcsfFile.data_continous (f : UcsfFile) : Option (List Nat) :=
  let total_size := UcsfFile.calculate_data_size f.axis_headers
  match f.tilesList with
  | none => none
  | some tiles => writeTiles f.axis_sizes (List.replicate total_size 0) tiles

/-- Source `UcsfFile::bounds`: sort a copy of the samples and return first and last.
The samples are taken in an arbitrary linearly ordered type: the source compares
with `partial_cmp(..).unwrap()`, which is a total order exactly when no NaN is
present (the hypothesis of the claim); `.unwrap()` on an empty buffer panics,
modelled as `none`.  The sort is Mathlib's stable `insertionSort`, standing in
for Rust's stable `sort_by`. -/
def bounds {α : Type} [LinearOrder α] (data : List α) : Option (α × α) :=
  let sorted_data := List.insertionSort (· ≤ ·) data
  match sorted_data.head?, sorted_data.getLast? with
  | some min_val, some max_val => some (min_val, max_val)
  | _, _ => none

/-- The axis of concrete scenario B of the specification: 257 data points, tile size 64. -/
def axisB : AxisHeader := ⟨[], 257, 64, 0, 0, 0, []⟩

/-- A concrete parsed file with boundary padding: axis 0 has 2 points in tiles of 2
(one tile), axis 1 has 3 points in tiles of 2 (two tiles, the second padded by 1).
The padded sample stream holds `1 * 4 = 2 * 2` samples per tile row, 8 in total,
numbered so every flat position is identifiable. -/
def cf1 : UcsfFile :=
  ⟨⟨2, 1, 2, []⟩, [⟨[], 2, 2, 0, 0, 0, []⟩, ⟨[], 3, 2, 0, 0, 0, []⟩],
   [0, 1, 2, 3, 4, 5, 6, 7]⟩

/-- A concrete parsed file without any padding: two axes of 1 point in tiles of 1,
with the single sample value 7. -/
def cf3 : UcsfFile :=
  ⟨⟨2, 1, 2, []⟩, [⟨[], 1, 1, 0, 0, 0, []⟩, ⟨[], 1, 1, 0, 0, 0, []⟩], [7]⟩

/-- The trimmed (padding-excluded) sample count of the tile with linear index `k`,
its tile indices taken row-major over the per-axis tile counts. -/
def tileTrimmedSize (f : UcsfFile) (k : Nat) : Nat :=
  match multi_dim_index f.axis_tiles k with
  | none => 0
  | some tile_indices =>
    (List.zipWith (fun (a : AxisHeader) t => a.tile_size - a.tile_padding t)
      f.axis_headers tile_indices).prod

/-- The tile-slice offset the specification mandates: the cumulative sum of the
trimmed sample counts of all preceding tiles in row-major order.  This follows
the spec's words, for comparison with the offset `Tiles::next` actually uses. -/
def specTileOffset (f : UcsfFile) (k : Nat) : Nat :=
  ((List.range k).map (tileTrimmedSize f)).sum

/-- All tile-index tuples of a list of axes, row-major (axis 0 slowest). -/
def tileTuples : List AxisHeader → List (List Nat)
  | [] => [[]]
  | a :: rest =>
    (List.range a.num_tiles).flatMap (fun t => (tileTuples rest).map (fun tup => t :: tup))

/-- Product of the per-axis valid lengths (`tile_size - tile_padding`) of the tile
with index tuple `tup`. -/
def tileTrimmedCount (axes : List AxisHeader) (tup : List Nat) : Nat :=
  (List.zipWith (fun (a : AxisHeader) t => a.tile_size - a.tile_padding t) axes tup).prod

/-- A header whose component count is 2 while the format version bytes are also
invalid, and a header with components 1 but version 3. -/
def badComponentsInput : List Byte :=
  magicBytes ++ [0, 0, 2, 2, 9, 9] ++ List.replicate 166 0

def badVersionInput : List Byte :=
  magicBytes ++ [0, 0, 2, 1, 0, 3] ++ List.replicate 166 0

/-- A minimal well-formed input: valid header with zero dimensions followed by the
four bytes of the single (empty-product) sample. -/
def minimalInput : List Byte :=
  magicBytes ++ [0, 0, 0, 1, 0, 2] ++ List.replicate 166 0 ++ [0, 0, 0, 0]


/-- Ceiling division via the `(d + s - 1) / s` idiom. -/
lemma ceil_div_eq (d s : Nat) (hs : 0 < s) :
    (d + s - 1) / s = d / s + (if d % s = 0 then 0 else 1) := by
  obtain ⟨q, r, rfl, hrs⟩ : ∃ q r, d = s * q + r ∧ r < s :=
    ⟨d / s, d % s, (Nat.div_add_mod d s).symm, Nat.mod_lt _ hs⟩
  have hq : (s * q + r) / s = q + r / s := by
    rw [Nat.add_comm (s * q) r, Nat.add_mul_div_left _ _ hs, Nat.add_comm]
  have hr0 : r / s = 0 := Nat.div_eq_of_lt hrs
  have hm : (s * q + r) % s = r := by
    rw [Nat.add_comm, Nat.add_mul_mod_self_left, Nat.mod_eq_of_lt hrs]
  by_cases h : r = 0
  · subst h
    have lhs0 : (s * q + 0 + s - 1) / s = q := by
      have e : s * q + 0 + s - 1 = (s - 1) + s * q := by omega
      rw [e, Nat.add_mul_div_left _ _ hs, Nat.div_eq_of_lt (by omega)]
      omega
    have rhs0 : (s * q + 0) / s = q := by rw [hq, hr0]; omega
    rw [lhs0, hm, rhs0]
    simp
  · have lhs1 : (s * q + r + s - 1) / s = q + 1 := by
      have e : s * q + r + s - 1 = (r + s - 1) + s * q := by omega
      have h1 : (r + s - 1) / s = 1 := Nat.div_eq_of_lt_le (by omega) (by omega)
      rw [e, Nat.add_mul_div_left _ _ hs, h1, Nat.add_comm]
    have rhs1 : (s * q + r) / s = q := by rw [hq, hr0]; omega
    rw [lhs1, hm, rhs1]
    simp [h]

lemma tile_padding_of_lt (a : AxisHeader) {t : Nat}
    (ht : t < a.data_points / a.tile_size) : a.tile_padding t = 0 := by
  have h : ¬(a.data_points / a.tile_size ≤ t) := by omega
  simp [AxisHeader.tile_padding, AxisHeader.tile_is_padded, h]

lemma tile_padding_of_le (a : AxisHeader) {t : Nat}
    (ht : a.data_points / a.tile_size ≤ t) :
    a.tile_padding t = a.padded_size - a.data_points := by
  simp [AxisHeader.tile_padding, AxisHeader.tile_is_padded, ht]

/-- C5: tile counting and padding per axis: `num_tiles` is the rounded-up quotient
`(data_points + tile_size - 1) / tile_size` and bounds `data_points` from above by
less than one spare tile; `padded_size` is `num_tiles * tile_size`; tiles strictly
before `data_points / tile_size` have no padding and all later tiles carry the whole
shortfall `padded_size - data_points`; concretely, for 257 points in tiles of 64
there are 5 tiles, the boundary tile has padding 63 and valid length 1. -/
theorem axis_geometry_spec (a : AxisHeader)
    (hts : 0 < a.tile_size) (hdp : 0 < a.data_points) :
    a.num_tiles = (a.data_points + a.tile_size - 1) / a.tile_size
    ∧ a.data_points ≤ a.num_tiles * a.tile_size
    ∧ a.num_tiles * a.tile_size < a.data_points + a.tile_size
    ∧ a.padded_size = a.num_tiles * a.tile_size
    ∧ (∀ t, t < a.data_points / a.tile_size → a.tile_padding t = 0)
    ∧ (∀ t, a.data_points / a.tile_size ≤ t →
        a.tile_padding t = a.padded_size - a.data_points)
    ∧ axisB.num_tiles = 5 ∧ axisB.tile_padding 4 = 63
    ∧ axisB.tile_size - axisB.tile_padding 4 = 1 := by
  have hceil : a.num_tiles
      = a.data_points / a.tile_size + (if a.data_points % a.tile_size = 0 then 0 else 1) :=
    ceil_div_eq a.data_points a.tile_size hts
  have hdm := Nat.div_add_mod a.data_points a.tile_size
  have hml : a.data_points % a.tile_size < a.tile_size := Nat.mod_lt _ hts
  refine ⟨rfl, ?_, ?_, rfl, fun t ht => tile_padding_of_lt a ht,
    fun t ht => tile_padding_of_le a ht, by decide, by decide, by decide⟩
  · rw [hceil]
    have hc : a.data_points / a.tile_size * a.tile_size
        = a.tile_size * (a.data_points / a.tile_size) := Nat.mul_comm _ _
    by_cases h : a.data_points % a.tile_size = 0 <;> simp [h, Nat.add_mul] <;> omega
  · rw [hceil]
    have hc : a.data_points / a.tile_size * a.tile_size
        = a.tile_size * (a.data_points / a.tile_size) := Nat.mul_comm _ _
    by_cases h : a.data_points % a.tile_size = 0 <;> simp [h, Nat.add_mul] <;> omega

theorem axis_geometry_spec_witness :
    0 < axisB.tile_size ∧ 0 < axisB.data_points
    ∧ (axisB.num_tiles = (axisB.data_points + axisB.tile_size - 1) / axisB.tile_size
    ∧ axisB.data_points ≤ axisB.num_tiles * axisB.tile_size
    ∧ axisB.num_tiles * axisB.tile_size < axisB.data_points + axisB.tile_size
    ∧ axisB.padded_size = axisB.num_tiles * axisB.tile_size
    ∧ (∀ t, t < axisB.data_points / axisB.tile_size → axisB.tile_padding t = 0)
    ∧ (∀ t, axisB.data_points / axisB.tile_size ≤ t →
        axisB.tile_padding t = axisB.padded_size - axisB.data_points)
    ∧ axisB.num_tiles = 5 ∧ axisB.tile_padding 4 = 63
    ∧ axisB.tile_size - axisB.tile_padding 4 = 1) :=
  ⟨by decide, by decide, axis_geometry_spec axisB (by decide) (by decide)⟩

lemma sum_map_const_range (n c : Nat) : ((List.range n).map (fun _ => c)).sum = n * c := by
  induction n with
  | zero => simp
  | succ n ih => rw [List.range_succ]; simp [ih, Nat.succ_mul]

/-- The valid lengths of the tiles along one axis add up to exactly the axis's
data-point count. -/
lemma sum_valid_lengths (a : AxisHeader) (hts : 0 < a.tile_size) :
    ((List.range a.num_tiles).map (fun t => a.tile_size - a.tile_padding t)).sum
      = a.data_points := by
  have hceil := ceil_div_eq a.data_points a.tile_size hts
  have hdm := Nat.div_add_mod a.data_points a.tile_size
  have hml : a.data_points % a.tile_size < a.tile_size := Nat.mod_lt _ hts
  have hfull : ∀ t ∈ List.range (a.data_points / a.tile_size),
      a.tile_size - a.tile_padding t = a.tile_size := by
    intro t ht
    rw [tile_padding_of_lt a (List.mem_range.mp ht)]
    omega
  by_cases h : a.data_points % a.tile_size = 0
  · have hnum : a.num_tiles = a.data_points / a.tile_size := by
      unfold AxisHeader.num_tiles
      rw [hceil, h]
      simp
    rw [hnum,
      show (List.range (a.data_points / a.tile_size)).map
          (fun t => a.tile_size - a.tile_padding t)
        = (List.range (a.data_points / a.tile_size)).map (fun _ => a.tile_size) from
        List.map_congr_left hfull,
      sum_map_const_range]
    have hc : a.data_points / a.tile_size * a.tile_size
        = a.tile_size * (a.data_points / a.tile_size) := Nat.mul_comm _ _
    omega
  · have hnum : a.num_tiles = a.data_points / a.tile_size + 1 := by
      unfold AxisHeader.num_tiles
      rw [hceil]
      simp [h]
    rw [hnum, List.range_succ, List.map_append, List.sum_append,
      show (List.range (a.data_points / a.tile_size)).map
          (fun t => a.tile_size - a.tile_padding t)
        = (List.range (a.data_points / a.tile_size)).map (fun _ => a.tile_size) from
        List.map_congr_left hfull,
      sum_map_const_range]
    simp only [List.map_cons, List.map_nil, List.sum_cons, List.sum_nil]
    rw [tile_padding_of_le a (le_refl _)]
    have hpad : a.padded_size = a.tile_size * (a.data_points / a.tile_size) + a.tile_size := by
      rw [AxisHeader.padded_size, hnum]; ring
    have hc : a.data_points / a.tile_size * a.tile_size
        = a.tile_size * (a.data_points / a.tile_size) := Nat.mul_comm _ _
    omega

lemma sum_flatMap_nat {α β : Type} (l : List α) (f : α → List β) (g : β → Nat) :
    ((l.flatMap f).map g).sum = (l.map (fun x => ((f x).map g).sum)).sum := by
  induction l with
  | nil => simp
  | cons a l ih => simp [List.flatMap_cons, List.map_append, List.sum_append, ih]

/-- C7: the trimmed tiles tile the spectrum exactly: over all tile-index tuples the
products of per-axis valid lengths (`tile_size - tile_padding`) sum to the product
of the axes' data-point counts — no sample double-counted or dropped. -/
theorem trimmed_tiles_cover_exactly (axes : List AxisHeader)
    (h : ∀ a ∈ axes, 0 < a.tile_size ∧ 0 < a.data_points) :
    ((tileTuples axes).map (tileTrimmedCount axes)).sum
      = (axes.map (fun a => a.data_points)).prod := by
  induction axes with
  | nil => simp [tileTuples, tileTrimmedCount]
  | cons a rest ih =>
    have ha : 0 < a.tile_size := (h a (by simp)).1
    have hrest := ih (fun x hx => (h x (by simp [hx])))
    simp only [tileTuples]
    rw [sum_flatMap_nat]
    have hinner : ∀ t : Nat, (((tileTuples rest).map (fun tup => t :: tup)).map
        (tileTrimmedCount (a :: rest))).sum
        = (a.tile_size - a.tile_padding t) * ((tileTuples rest).map (tileTrimmedCount rest)).sum := by
      intro t
      rw [List.map_map]
      have hc : ∀ tup, (tileTrimmedCount (a :: rest) ∘ fun tup => t :: tup) tup
          = (a.tile_size - a.tile_padding t) * tileTrimmedCount rest tup := by
        intro tup
        simp [tileTrimmedCount, Function.comp]
      rw [List.map_congr_left (fun tup _ => hc tup), List.sum_map_mul_left]
    rw [List.map_congr_left (fun t _ => hinner t), hrest]
    have : ((List.range a.num_tiles).map
        (fun t => (a.tile_size - a.tile_padding t) * (rest.map (fun x => x.data_points)).prod)).sum
        = ((List.range a.num_tiles).map (fun t => a.tile_size - a.tile_padding t)).sum
          * (rest.map (fun x => x.data_points)).prod := by
      induction a.num_tiles with
      | zero => simp
      | succ n ihn =>
        rw [List.range_succ]
        simp [List.map_append, List.sum_append, ihn, Nat.add_mul]
    rw [this, sum_valid_lengths a ha, List.map_cons, List.prod_cons]

theorem trimmed_tiles_cover_exactly_witness :
    (∀ a ∈ cf1.axis_headers, 0 < a.tile_size ∧ 0 < a.data_points)
    ∧ ((tileTuples cf1.axis_headers).map (tileTrimmedCount cf1.axis_headers)).sum
      = (cf1.axis_headers.map (fun a => a.data_points)).prod :=
  ⟨by decide, trimmed_tiles_cover_exactly cf1.axis_headers (by decide)⟩

lemma multi_dim_position_two (s0 s1 a b : Nat) (h1 : 0 < s1) :
    multi_dim_position [s0, s1] [a, b] = a * s1 + b := by
  obtain ⟨k, rfl⟩ : ∃ k, s1 = k + 1 := ⟨s1 - 1, by omega⟩
  simp [multi_dim_position, List.range_succ]

lemma multi_dim_position_three (s0 s1 s2 a b c : Nat) (h1 : 0 < s1) (h2 : 0 < s2) :
    multi_dim_position [s0, s1, s2] [a, b, c] = a * (s1 * s2) + b * s2 + c := by
  obtain ⟨k1, rfl⟩ : ∃ k, s1 = k + 1 := ⟨s1 - 1, by omega⟩
  obtain ⟨k2, rfl⟩ : ∃ k, s2 = k + 1 := ⟨s2 - 1, by omega⟩
  simp [multi_dim_position, List.range_succ, Nat.succ_mul, Nat.mul_succ]

lemma mul_add_div_lt_eq (a b s : Nat) (hs : 0 < s) (hb : b < s) : (a * s + b) / s = a := by
  rw [Nat.add_comm (a * s) b, Nat.mul_comm a s, Nat.add_mul_div_left b a hs,
    Nat.div_eq_of_lt hb]
  omega

lemma mul_add_mod_lt_eq (a b s : Nat) (hb : b < s) : (a * s + b) % s = b := by
  rw [Nat.add_comm (a * s) b, Nat.mul_comm a s, Nat.add_mul_mod_self_left,
    Nat.mod_eq_of_lt hb]

/-- C2 (amended): the coordinate mapper round-trips in the dimension counts the
source implements, 2 and 3: flattening valid coordinates and unflattening gives
the coordinates back, and unflattening any position below the total size and
flattening gives the position back. -/
theorem multi_dim_roundtrip_two_three (sizes coords : List Nat)
    (hN : sizes.length = 2 ∨ sizes.length = 3)
    (hlen : coords.length = sizes.length)
    (hbound : ∀ d, d < sizes.length → coords.getD d 0 < sizes.getD d 0) :
    multi_dim_index sizes (multi_dim_position sizes coords) = some coords
    ∧ ∀ pos, pos < sizes.prod →
        ∃ c, multi_dim_index sizes pos = some c ∧ multi_dim_position sizes c = pos := by
  rcases hN with h2 | h3
  · obtain ⟨s0, s1, rfl⟩ := List.length_eq_two.mp h2
    obtain ⟨a, b, rfl⟩ := List.length_eq_two.mp (by simpa using hlen)
    have hb0 : a < s0 := by simpa using hbound 0 (by norm_num)
    have hb1 : b < s1 := by simpa using hbound 1 (by norm_num)
    have h1 : 0 < s1 := by omega
    constructor
    · rw [multi_dim_position_two s0 s1 a b h1]
      simp [multi_dim_index, mul_add_div_lt_eq a b s1 h1 hb1, mul_add_mod_lt_eq a b s1 hb1]
    · intro pos hpos
      have h1p : 0 < s1 := by
        rcases Nat.eq_zero_or_pos s1 with hz | hp
        · subst hz; simp at hpos
        · exact hp
      refine ⟨[pos / s1, pos % s1], by simp [multi_dim_index], ?_⟩
      rw [multi_dim_position_two s0 s1 _ _ h1p, Nat.mul_comm, Nat.div_add_mod]
  · obtain ⟨s0, s1, s2, rfl⟩ := List.length_eq_three.mp h3
    obtain ⟨a, b, c, rfl⟩ := List.length_eq_three.mp (by simpa using hlen)
    have hb0 : a < s0 := by simpa using hbound 0 (by norm_num)
    have hb1 : b < s1 := by simpa using hbound 1 (by norm_num)
    have hb2 : c < s2 := by simpa using hbound 2 (by norm_num)
    have h1 : 0 < s1 := by omega
    have h2 : 0 < s2 := by omega
    have h12 : 0 < s1 * s2 := Nat.mul_pos h1 h2
    have hsm : (b + 1) * s2 = b * s2 + s2 := Nat.succ_mul b s2
    have hmono : (b + 1) * s2 ≤ s1 * s2 := Nat.mul_le_mul_right s2 (by omega)
    have he : b * s2 + c < s1 * s2 := by omega
    constructor
    · rw [multi_dim_position_three s0 s1 s2 a b c h1 h2]
      have hp : a * (s1 * s2) + b * s2 + c = a * (s1 * s2) + (b * s2 + c) := by ring
      rw [hp]
      simp [multi_dim_index, mul_add_div_lt_eq a (b * s2 + c) (s1 * s2) h12 he,
        mul_add_mod_lt_eq a (b * s2 + c) (s1 * s2) he,
        mul_add_div_lt_eq b c s2 h2 hb2, mul_add_mod_lt_eq b c s2 hb2]
    · intro pos hpos
      have h12p : 0 < s1 * s2 := by
        rcases Nat.eq_zero_or_pos (s1 * s2) with hz | hp
        · rw [List.prod_cons, List.prod_cons, List.prod_cons, List.prod_nil] at hpos
          omega
        · exact hp
      have h2p : 0 < s2 := by
        rcases Nat.eq_zero_or_pos s2 with hz | hp
        · subst hz; simp at h12p
        · exact hp
      have h1p : 0 < s1 := by
        rcases Nat.eq_zero_or_pos s1 with hz | hp
        · subst hz; simp at h12p
        · exact hp
      refine ⟨[pos / (s1 * s2), (pos % (s1 * s2)) / s2, (pos % (s1 * s2)) % s2],
        by simp [multi_dim_index], ?_⟩
      rw [multi_dim_position_three s0 s1 s2 _ _ _ h1p h2p]
      have hin : (pos % (s1 * s2)) / s2 * s2 + pos % (s1 * s2) % s2 = pos % (s1 * s2) := by
        rw [Nat.mul_comm, Nat.div_add_mod]
      have hout : pos / (s1 * s2) * (s1 * s2) + pos % (s1 * s2) = pos := by
        rw [Nat.mul_comm, Nat.div_add_mod]
      omega

/-- C2 counterexample: for four dimensions `multi_dim_index` is unimplemented
(the source panics), so the round-trip of the claim has no value to return. -/
theorem multi_dim_index_unimplemented_for_four :
    multi_dim_index [2, 2, 2, 2] 0 = none := by decide

theorem multi_dim_roundtrip_witness :
    multi_dim_index [4, 3, 3] (multi_dim_position [4, 3, 3] [3, 2, 1]) = some [3, 2, 1]
    ∧ ∃ cds, multi_dim_index [4, 3, 3] 34 = some cds
        ∧ multi_dim_position [4, 3, 3] cds = 34 :=
  ⟨(multi_dim_roundtrip_two_three [4, 3, 3] [3, 2, 1] (by decide) (by decide)
      (by decide)).1,
   (multi_dim_roundtrip_two_three [4, 3, 3] [3, 2, 1] (by decide) (by decide)
      (by decide)).2 34 (by decide)⟩

lemma takeN_eq_some {n : Nat} {l a r : List Byte} (h : takeN n l = some (a, r)) :
    n ≤ l.length ∧ a = l.take n ∧ r = l.drop n := by
  by_cases hn : n ≤ l.length
  · simp [takeN, hn] at h
    exact ⟨hn, h.1.symm, h.2.symm⟩
  · simp [takeN, hn] at h

lemma takeN_of {n : Nat} {l : List Byte} (hn : n ≤ l.length) :
    takeN n l = some (l.take n, l.drop n) := by
  simp [takeN, hn]

lemma tagMagic_eq_some {l r : List Byte} (h : tagBytes magicBytes l = some r) :
    l.take 8 = magicBytes ∧ r = l.drop 8 := by
  by_cases hc : l.take 8 = magicBytes
  · refine ⟨hc, ?_⟩
    simp [tagBytes, show magicBytes.length = 8 from rfl, hc] at h
    exact h.symm
  · simp [tagBytes, show magicBytes.length = 8 from rfl, hc] at h

lemma tagMagic_of {l : List Byte} (hm : l.take 8 = magicBytes) :
    tagBytes magicBytes l = some (l.drop 8) := by
  simp [tagBytes, show magicBytes.length = 8 from rfl, hm]

lemma getD_take_drop (l : List Byte) (n k i : Nat) (h : i < k) :
    ((l.drop n).take k).getD i 0 = l.getD (n + i) 0 := by
  simp [List.getD_eq_getElem?_getD, List.getElem?_take, h, List.getElem?_drop]

lemma parse_raw_of (input : List Byte) (hl : 180 ≤ input.length)
    (hm : input.take 8 = magicBytes) :
    Header.parse_raw input = some (input.drop 180,
      (input.getD 10 0, input.getD 11 0,
        beU16 (input.getD 12 0) (input.getD 13 0), (input.drop 14).take 166)) := by
  have c1 : 2 ≤ (input.drop 8).length := by simp; omega
  have c2 : 1 ≤ (input.drop 10).length := by simp; omega
  have c3 : 1 ≤ (input.drop 11).length := by simp; omega
  have c4 : 2 ≤ (input.drop 12).length := by simp; omega
  have c5 : 166 ≤ (input.drop 14).length := by simp; omega
  simp [Header.parse_raw, tagMagic_of hm, List.drop_drop, takeN_of c1, takeN_of c2,
    takeN_of c3, takeN_of c4, takeN_of c5,
    getD_take_drop _ _ _ _ (by norm_num : (0:Nat) < 1),
    getD_take_drop _ _ _ _ (by norm_num : (0:Nat) < 2),
    getD_take_drop _ _ _ _ (by norm_num : (1:Nat) < 2)]

lemma parse_raw_none {input : List Byte}
    (h : input.length < 180 ∨ input.take 8 ≠ magicBytes) :
    Header.parse_raw input = none := by
  by_cases hm : input.take 8 = magicBytes
  · have hl : input.length < 180 := by
      rcases h with h | h
      · exact h
      · exact absurd hm h
    by_cases c1 : 2 ≤ input.length - 8
    · by_cases c2 : 1 ≤ input.length - 10
      · by_cases c3 : 1 ≤ input.length - 11
        · by_cases c4 : 2 ≤ input.length - 12
          · have c5 : ¬ 166 ≤ input.length - 14 := by omega
            simp [Header.parse_raw, tagMagic_of hm, takeN, c1, c2, c3, c4, c5]
          · simp [Header.parse_raw, tagMagic_of hm, takeN, c1, c2, c3, c4]
        · simp [Header.parse_raw, tagMagic_of hm, takeN, c1, c2, c3]
      · simp [Header.parse_raw, tagMagic_of hm, takeN, c1, c2]
    · simp [Header.parse_raw, tagMagic_of hm, takeN, c1]
  · simp [Header.parse_raw, tagBytes, show magicBytes.length = 8 from rfl, hm]

lemma parse_raw_some {input rem : List Byte} {flds}
    (h : Header.parse_raw input = some (rem, flds)) :
    180 ≤ input.length ∧ input.take 8 = magicBytes ∧ rem = input.drop 180
    ∧ flds = (input.getD 10 0, input.getD 11 0,
        beU16 (input.getD 12 0) (input.getD 13 0), (input.drop 14).take 166) := by
  by_cases hm : input.take 8 = magicBytes
  · by_cases hl : 180 ≤ input.length
    · rw [parse_raw_of input hl hm] at h
      simp only [Option.some.injEq, Prod.mk.injEq] at h
      exact ⟨hl, hm, h.1.symm, h.2.symm⟩
    · rw [parse_raw_none (Or.inl (by omega))] at h
      exact Option.noConfusion h
  · rw [parse_raw_none (Or.inr hm)] at h
    exact Option.noConfusion h

lemma header_parse_parsing {input : List Byte}
    (h : input.length < 180 ∨ input.take 8 ≠ magicBytes) :
    Header.parse input = .error .Parsing := by
  unfold Header.parse
  rw [parse_raw_none h]

lemma header_parse_components {input : List Byte} (hl : 180 ≤ input.length)
    (hm : input.take 8 = magicBytes) (hc : input.getD 11 0 ≠ 1) :
    Header.parse input = .error .UnsupportedComponents := by
  unfold Header.parse
  rw [parse_raw_of input hl hm]
  simp only [List.getD_eq_getElem?_getD] at hc
  simp [hc]

lemma header_parse_version {input : List Byte} (hl : 180 ≤ input.length)
    (hm : input.take 8 = magicBytes) (hc : input.getD 11 0 = 1)
    (hv : beU16 (input.getD 12 0) (input.getD 13 0) ≠ 2) :
    Header.parse input = .error .UnsupportedFormat := by
  unfold Header.parse
  rw [parse_raw_of input hl hm]
  simp only [List.getD_eq_getElem?_getD] at hc hv
  simp [hc, hv]

lemma header_parse_ok {input rem : List Byte} {hd : Header}
    (h : Header.parse input = .ok (rem, hd)) :
    180 ≤ input.length ∧ rem = input.drop 180 := by
  unfold Header.parse at h
  cases hr : Header.parse_raw input with
  | none => rw [hr] at h; exact Except.noConfusion h
  | some x =>
    obtain ⟨r0, d, c, v, rm⟩ := x
    obtain ⟨hl, -, hrem, -⟩ := parse_raw_some hr
    rw [hr] at h
    by_cases hc : c ≠ 1
    · simp [hc] at h
    · by_cases hv : v ≠ 2
      · simp [hc, hv] at h
      · simp [hc, hv] at h
        exact ⟨hl, h.1 ▸ hrem⟩

/-- C4: the header validation reports the specific error kind of the violated
check: a missing magic token or a buffer shorter than the 180-byte header gives
`Parsing`; a component count different from 1 (byte 11) gives
`UnsupportedComponents` no matter what the format version holds; a component
count of 1 with a format version (bytes 12-13, big-endian) different from 2
gives `UnsupportedFormat`. -/
theorem header_parse_error_kinds :
    (∀ input : List Byte, input.length < 180 ∨ input.take 8 ≠ magicBytes →
      Header.parse input = .error .Parsing)
    ∧ (∀ input : List Byte, 180 ≤ input.length → input.take 8 = magicBytes →
      input.getD 11 0 ≠ 1 → Header.parse input = .error .UnsupportedComponents)
    ∧ (∀ input : List Byte, 180 ≤ input.length → input.take 8 = magicBytes →
      input.getD 11 0 = 1 → beU16 (input.getD 12 0) (input.getD 13 0) ≠ 2 →
      Header.parse input = .error .UnsupportedFormat) :=
  ⟨fun _ h => header_parse_parsing h,
   fun _ hl hm hc => header_parse_components hl hm hc,
   fun _ hl hm hc hv => header_parse_version hl hm hc hv⟩



set_option maxRecDepth 8192 in
theorem header_parse_error_kinds_witness :
    (([1, 2, 3] : List Byte).length < 180 ∨ ([1, 2, 3] : List Byte).take 8 ≠ magicBytes)
    ∧ Header.parse [1, 2, 3] = .error .Parsing
    ∧ (180 ≤ badComponentsInput.length ∧ badComponentsInput.take 8 = magicBytes
        ∧ badComponentsInput.getD 11 0 ≠ 1)
    ∧ Header.parse badComponentsInput = .error .UnsupportedComponents
    ∧ (180 ≤ badVersionInput.length ∧ badVersionInput.take 8 = magicBytes
        ∧ badVersionInput.getD 11 0 = 1
        ∧ beU16 (badVersionInput.getD 12 0) (badVersionInput.getD 13 0) ≠ 2)
    ∧ Header.parse badVersionInput = .error .UnsupportedFormat :=
  ⟨by decide,
   header_parse_error_kinds.1 [1, 2, 3] (by decide),
   by decide,
   header_parse_error_kinds.2.1 badComponentsInput (by decide) (by decide) (by decide),
   by decide,
   header_parse_error_kinds.2.2 badVersionInput (by decide) (by decide) (by decide) (by decide)⟩

/-- C6: any input shorter than the full 180-byte header fails to parse with the
`Parsing` error kind (the embedding is total, so no out-of-bounds access or panic
is possible on this path). -/
theorem parse_truncated_fails (input : List Byte) (h : input.length < 180) :
    UcsfFile.parse input = .error .Parsing := by
  unfold UcsfFile.parse
  rw [header_parse_parsing (Or.inl h)]

theorem parse_truncated_fails_witness :
    ([1, 2, 3] : List Byte).length < 180
    ∧ UcsfFile.parse [1, 2, 3] = .error .Parsing :=
  ⟨by decide, parse_truncated_fails [1, 2, 3] (by decide)⟩

lemma axis_parse_raw_none {input : List Byte} (hl : input.length < 128) :
    AxisHeader.parse_raw input = none := by
  by_cases c1 : 8 ≤ input.length
  case neg => simp [AxisHeader.parse_raw, takeN, c1]
  case pos => ?_
  by_cases c2 : 4 ≤ input.length - 8
  case neg => simp [AxisHeader.parse_raw, takeN, c1, c2]
  case pos => ?_
  by_cases c3 : 4 ≤ input.length - 12
  case neg => simp [AxisHeader.parse_raw, takeN, c1, c2, c3]
  case pos => ?_
  by_cases c4 : 4 ≤ input.length - 16
  case neg => simp [AxisHeader.parse_raw, takeN, c1, c2, c3, c4]
  case pos => ?_
  by_cases c5 : 4 ≤ input.length - 20
  case neg => simp [AxisHeader.parse_raw, takeN, c1, c2, c3, c4, c5]
  case pos => ?_
  by_cases c6 : 4 ≤ input.length - 24
  case neg => simp [AxisHeader.parse_raw, takeN, c1, c2, c3, c4, c5, c6]
  case pos => ?_
  by_cases c7 : 4 ≤ input.length - 28
  case neg => simp [AxisHeader.parse_raw, takeN, c1, c2, c3, c4, c5, c6, c7]
  case pos => ?_
  have c8 : ¬ 96 ≤ input.length - 32 := by omega
  simp [AxisHeader.parse_raw, takeN, c1, c2, c3, c4, c5, c6, c7, c8]

lemma axis_parse_raw_of (input : List Byte) (hl : 128 ≤ input.length) :
    ∃ flds, AxisHeader.parse_raw input = some (input.drop 128, flds) := by
  have c1 : 8 ≤ input.length := by omega
  have c2 : 4 ≤ input.length - 8 := by omega
  have c3 : 4 ≤ input.length - 12 := by omega
  have c4 : 4 ≤ input.length - 16 := by omega
  have c5 : 4 ≤ input.length - 20 := by omega
  have c6 : 4 ≤ input.length - 24 := by omega
  have c7 : 4 ≤ input.length - 28 := by omega
  have c8 : 96 ≤ input.length - 32 := by omega
  simp [AxisHeader.parse_raw, takeN, c1, c2, c3, c4, c5, c6, c7, c8]

lemma axis_parse_ok {input rem : List Byte} {a : AxisHeader}
    (h : AxisHeader.parse input = .ok (rem, a)) :
    128 ≤ input.length ∧ rem = input.drop 128 := by
  by_cases hl : 128 ≤ input.length
  · obtain ⟨flds, hraw⟩ := axis_parse_raw_of input hl
    unfold AxisHeader.parse at h
    rw [hraw] at h
    obtain ⟨nucleus, dp, ts, fr, sw, ce, rm⟩ := flds
    simp only [Except.ok.injEq, Prod.mk.injEq] at h
    exact ⟨hl, h.1.symm⟩
  · unfold AxisHeader.parse at h
    rw [axis_parse_raw_none (by omega)] at h
    exact Except.noConfusion h

lemma parseAxes_ok : ∀ (n : Nat) (rem rem2 : List Byte) (axes : List AxisHeader),
    parseAxes n rem = .ok (rem2, axes) → axes.length = n ∧ rem2 = rem.drop (128 * n)
  | 0, rem, rem2, axes, h => by
    unfold parseAxes at h
    simp only [Except.ok.injEq, Prod.mk.injEq] at h
    obtain ⟨h1, h2⟩ := h
    subst h1 h2
    simp
  | n + 1, rem, rem2, axes, h => by
    unfold parseAxes at h
    cases e1 : AxisHeader.parse rem with
    | error e => simp only [e1] at h; exact Except.noConfusion h
    | ok x =>
      obtain ⟨rem1, a⟩ := x
      simp only [e1] at h
      cases e2 : parseAxes n rem1 with
      | error e => simp only [e2] at h; exact Except.noConfusion h
      | ok y =>
        obtain ⟨rem2x, rest⟩ := y
        simp only [e2] at h
        simp only [Except.ok.injEq, Prod.mk.injEq] at h
        obtain ⟨h1, h2⟩ := h
        subst h1 h2
        obtain ⟨hlen, hdrop⟩ := parseAxes_ok n rem1 rem2x rest e2
        obtain ⟨hl1, hr1⟩ := axis_parse_ok e1
        subst hr1 hdrop
        refine ⟨by simp [hlen], ?_⟩
        rw [List.drop_drop]
        congr 1
        ring

lemma chunks4_length : ∀ l : List Byte, (chunks4 l).length = l.length / 4
  | [] => by simp [chunks4]
  | [a] => by simp [chunks4]
  | [a, b] => by simp [chunks4]
  | [a, b, c] => by simp [chunks4]
  | a :: b :: c :: d :: rest => by
    have ih := chunks4_length rest
    simp [chunks4, ih]
    omega

/-- C10: a successful parse yields a sample vector holding exactly the product of
the padded axis extents, and leaves as remaining input exactly the suffix after
the 180 header bytes, `dimensions * 128` axis-record bytes and `4 * data.length`
sample bytes. -/
theorem parse_consumes_padded_stream (input rem : List Byte) (f : UcsfFile)
    (h : UcsfFile.parse input = .ok (rem, f)) :
    f.data.length = (f.axis_headers.map (fun a => a.padded_size)).prod
    ∧ f.axis_headers.length = f.header.dimensions
    ∧ rem = input.drop (180 + f.header.dimensions * 128 + 4 * f.data.length) := by
  unfold UcsfFile.parse at h
  cases e1 : Header.parse input with
  | error e => simp only [e1] at h; exact Except.noConfusion h
  | ok x =>
    obtain ⟨rem0, header⟩ := x
    simp only [e1] at h
    cases e2 : parseAxes header.dimensions rem0 with
    | error e => simp only [e2] at h; exact Except.noConfusion h
    | ok y =>
      obtain ⟨rem1, axes⟩ := y
      simp only [e2] at h
      cases e3 : takeN (UcsfFile.calculate_data_size axes) rem1 with
      | none => simp only [e3] at h; exact Except.noConfusion h
      | some z =>
        obtain ⟨bytes, rem2⟩ := z
        simp only [e3] at h
        simp only [Except.ok.injEq, Prod.mk.injEq] at h
        obtain ⟨h1, h2⟩ := h
        subst h1 h2
        obtain ⟨hsz, hbytes, hrem2⟩ := takeN_eq_some e3
        obtain ⟨hl0, hrem0⟩ := header_parse_ok e1
        obtain ⟨haxlen, hrem1⟩ := parseAxes_ok _ _ _ _ e2
        have hblen : bytes.length = UcsfFile.calculate_data_size axes := by
          subst hbytes
          simp [List.length_take]
          omega
        have hdlen : (chunks4 bytes).length
            = (axes.map (fun a => a.padded_size)).prod := by
          rw [chunks4_length, hblen, UcsfFile.calculate_data_size]
          omega
        refine ⟨hdlen, haxlen, ?_⟩
        subst hrem2 hrem1 hrem0
        rw [List.drop_drop, List.drop_drop]
        have hds : UcsfFile.calculate_data_size axes
            = (axes.map (fun a => a.padded_size)).prod * 4 := rfl
        simp only [show (UcsfFile.mk header axes (chunks4 bytes)).header = header from rfl,
          show (UcsfFile.mk header axes (chunks4 bytes)).data = chunks4 bytes from rfl]
        congr 1
        rw [hdlen]
        omega


set_option maxRecDepth 8192 in
theorem parse_consumes_padded_stream_witness :
    UcsfFile.parse minimalInput
      = .ok ([], ⟨⟨0, 1, 2, List.replicate 166 0⟩, [], [0]⟩)
    ∧ ([0] : List Nat).length = (([] : List AxisHeader).map (fun a => a.padded_size)).prod
    ∧ ([] : List AxisHeader).length = (0 : Nat)
    ∧ ([] : List Byte) = minimalInput.drop (180 + 0 * 128 + 4 * ([0] : List Nat).length) := by
  have h : UcsfFile.parse minimalInput
      = .ok ([], ⟨⟨0, 1, 2, List.replicate 166 0⟩, [], [0]⟩) := by rfl
  have := parse_consumes_padded_stream minimalInput []
    ⟨⟨0, 1, 2, List.replicate 166 0⟩, [], [0]⟩ h
  exact ⟨h, by decide, by decide, by decide⟩

/-- C1 (code bug): on a padded file, the second tile view yielded by `Tiles::next`
slices the buffer at `own trimmed size * linear index = 2`, while the cumulative
sum of the preceding tiles' trimmed sizes is 4; the yielded slice `[2, 3]` differs
from the slice `[4, 5]` at the specified cumulative offset. -/
theorem tiles_offset_not_cumulative :
    cf1.tileAt 1 = some ⟨[2, 1], [0, 2], [2, 3]⟩
    ∧ specTileOffset cf1 1 = 4
    ∧ (cf1.data.drop (specTileOffset cf1 1)).take 2 = [4, 5]
    ∧ cf1.tileAt 1 ≠ some ⟨[2, 1], [0, 2],
        (cf1.data.drop (specTileOffset cf1 1)).take 2⟩ := by decide

/-- C3 (code bug): `data_continous` sizes its buffer with `calculate_data_size`,
the byte count `4 * product(padded sizes)`, so on a 1-sample file it returns four
elements instead of `product(data_points) = 1`. -/
theorem data_continous_wrong_length :
    cf3.data_continous = some [7, 0, 0, 0]
    ∧ ([7, 0, 0, 0] : List Nat).length = UcsfFile.calculate_data_size cf3.axis_headers
    ∧ cf3.axis_sizes.prod = 1
    ∧ ([7, 0, 0, 0] : List Nat).length ≠ cf3.axis_sizes.prod := by decide

lemma multi_dim_index_some {sizes : List Nat} {pos : Nat} {c : List Nat}
    (h : multi_dim_index sizes pos = some c) :
    c.length = sizes.length ∧ (sizes.length = 2 ∨ sizes.length = 3) := by
  rcases sizes with _ | ⟨s0, _ | ⟨s1, _ | ⟨s2, _ | ⟨s3, rest⟩⟩⟩⟩ <;>
    simp [multi_dim_index] at h <;> simp [← h]

lemma multi_dim_index_total {sizes : List Nat}
    (hl : sizes.length = 2 ∨ sizes.length = 3) (pos : Nat) :
    ∃ c, multi_dim_index sizes pos = some c := by
  rcases hl with h | h
  · obtain ⟨s0, s1, rfl⟩ := List.length_eq_two.mp h
    simp [multi_dim_index]
  · obtain ⟨s0, s1, s2, rfl⟩ := List.length_eq_three.mp h
    simp [multi_dim_index]

lemma collectRange_map {α : Type} (g : Nat → Option α) (v : Nat → α) :
    ∀ n, (∀ i, i < n → g i = some (v i)) →
      collectRange g n = some ((List.range n).map v)
  | 0, _ => by simp [collectRange]
  | n + 1, h => by
    have ih := collectRange_map g v n (fun i hi => h i (by omega))
    simp [collectRange, ih, h n (by omega), List.range_succ]

lemma map_range_getD {α : Type} (v : Nat → α) {n i : Nat} (hi : i < n)
    (d : α) : ((List.range n).map v).getD i d = v i := by
  simp [List.getD_eq_getElem?_getD, List.getElem?_map, List.getElem?_range hi]

/-- C8: for every tile view actually yielded, the absolute-position iterator yields
one pair per sample of the tile's slice, the coordinates being
`multi_dim_index(axis_lengths, local index) + axis_starts` element-wise, and the
view's `axis_starts` are `tile_size * tile_index` per axis. -/
theorem iter_abs_pos_spec (f : UcsfFile) (k : Nat) (t : Tile)
    (h : f.tileAt k = some t) :
    (∃ tidx, multi_dim_index f.axis_tiles k = some tidx
      ∧ t.axis_starts = List.zipWith (fun tile_size tile_index => tile_size * tile_index)
          f.axis_tile_sizes tidx)
    ∧ ∃ pairs, t.iter_with_abolute_pos = some pairs
      ∧ pairs.length = t.data.length
      ∧ ∀ i, i < t.data.length →
          ∃ rel, multi_dim_index t.axis_lengths i = some rel
            ∧ pairs.getD i ([], 0)
              = (List.zipWith (fun axis_relative axis_start => axis_relative + axis_start)
                  rel t.axis_starts, t.data.getD i 0) := by
  unfold UcsfFile.tileAt at h
  by_cases htot : f.axis_tiles.prod ≤ k
  · simp [htot] at h
  cases e1 : multi_dim_index f.axis_tiles k with
  | none => simp [htot, e1] at h
  | some tidx =>
    simp only [htot, e1, if_neg, not_false_iff] at h
    obtain ⟨hti, h23⟩ := multi_dim_index_some e1
    have haxt : f.axis_tiles.length = f.axis_headers.length := by
      simp [UcsfFile.axis_tiles]
    have hats : f.axis_tile_sizes.length = f.axis_headers.length := by
      simp [UcsfFile.axis_tile_sizes]
    set lens := List.zipWith
      (fun (tile_size : Nat) (p : Nat × AxisHeader) => tile_size - p.2.tile_padding p.1)
      f.axis_tile_sizes (tidx.zip f.axis_headers) with hlensdef
    set starts := List.zipWith (fun tile_size tile_index => tile_size * tile_index)
      f.axis_tile_sizes tidx with hstartsdef
    have hlens : lens.length = 2 ∨ lens.length = 3 := by
      rw [hlensdef]
      simp [List.length_zipWith]
      omega
    split at h
    · simp only [Option.some.injEq] at h
      subst h
      refine ⟨⟨tidx, rfl, rfl⟩, ?_⟩
      set slice := (f.data.drop (lens.prod * k)).take lens.prod with hslicedef
      have hitem : ∀ i, i < slice.length →
          Tile.absItem ⟨lens, starts, slice⟩ i
            = some ((fun rel => (List.zipWith
                  (fun axis_relative axis_start => axis_relative + axis_start)
                  rel starts, slice.getD i 0)) ((multi_dim_index lens i).getD [])) := by
        intro i hi
        obtain ⟨rel, hrel⟩ := multi_dim_index_total hlens i
        simp [Tile.absItem, hrel]
      have hcoll := collectRange_map (Tile.absItem ⟨lens, starts, slice⟩) _
        slice.length hitem
      refine ⟨_, hcoll, by simp, ?_⟩
      intro i hi
      obtain ⟨rel, hrel⟩ := multi_dim_index_total hlens i
      refine ⟨rel, hrel, ?_⟩
      rw [map_range_getD _ hi]
      simp [hrel]
    · exact Option.noConfusion h

lemma sorted_head_le {α : Type} [LinearOrder α] :
    ∀ {l : List α}, List.Sorted (· ≤ ·) l → ∀ {x : α}, x ∈ l →
      ∀ {a : α}, l.head? = some a → a ≤ x := by
  intro l hs x hx a ha
  cases l with
  | nil => cases hx
  | cons b rest =>
    simp only [List.head?] at ha
    obtain rfl : b = a := by injection ha
    rcases List.mem_cons.mp hx with rfl | hx
    · exact le_refl x
    · exact (List.sorted_cons.mp hs).1 x hx

lemma sorted_le_getLast {α : Type} [LinearOrder α] :
    ∀ {l : List α}, List.Sorted (· ≤ ·) l → ∀ {x : α}, x ∈ l →
      ∀ {b : α}, l.getLast? = some b → x ≤ b := by
  intro l
  induction l with
  | nil => intro _ x hx; cases hx
  | cons a rest ih =>
    intro hs x hx b hb
    cases rest with
    | nil =>
      simp only [List.getLast?_singleton, Option.some.injEq] at hb
      rcases List.mem_cons.mp hx with rfl | hx
      · exact le_of_eq hb
      · cases hx
    | cons c rest2 =>
      rw [List.getLast?_cons_cons] at hb
      have hs2 := (List.sorted_cons.mp hs).2
      rcases List.mem_cons.mp hx with rfl | hx
      · have hcb : c ≤ b := ih hs2 (by simp) hb
        exact le_trans ((List.sorted_cons.mp hs).1 c (by simp)) hcb
      · exact ih hs2 hx hb

/-- C9: on a non-empty sample list over a linearly ordered value type (the
no-NaN hypothesis of the claim is what makes the source's
`partial_cmp(..).unwrap()` a total order), `bounds` returns a pair of an element
below all samples and an element above all samples. -/
theorem bounds_min_max {α : Type} [LinearOrder α] (data : List α) (h : data ≠ []) :
    ∃ mn mx, bounds data = some (mn, mx) ∧ mn ∈ data ∧ mx ∈ data
      ∧ ∀ x ∈ data, mn ≤ x ∧ x ≤ mx := by
  have hperm := List.perm_insertionSort (· ≤ ·) data
  have hsort := List.sorted_insertionSort (· ≤ ·) data
  have hsne : List.insertionSort (· ≤ ·) data ≠ [] := by
    intro hnil
    have := hperm.length_eq
    rw [hnil] at this
    exact h (List.length_eq_zero.mp this.symm)
  have hmn : (List.insertionSort (· ≤ ·) data).head? =
      some ((List.insertionSort (· ≤ ·) data).head hsne) := List.head?_eq_head hsne
  have hmx : (List.insertionSort (· ≤ ·) data).getLast? =
      some ((List.insertionSort (· ≤ ·) data).getLast hsne) :=
    List.getLast?_eq_getLast _ hsne
  refine ⟨(List.insertionSort (· ≤ ·) data).head hsne,
    (List.insertionSort (· ≤ ·) data).getLast hsne, ?_, ?_, ?_, ?_⟩
  · simp [bounds, hmn, hmx]
  · exact hperm.mem_iff.mp (List.head_mem hsne)
  · exact hperm.mem_iff.mp (List.getLast_mem hsne)
  · intro x hx
    have hxs : x ∈ List.insertionSort (· ≤ ·) data := hperm.mem_iff.mpr hx
    exact ⟨sorted_head_le hsort hxs hmn, sorted_le_getLast hsort hxs hmx⟩

theorem bounds_min_max_witness :
    ([3, 1, 2] : List Int) ≠ []
    ∧ ∃ mn mx, bounds ([3, 1, 2] : List Int) = some (mn, mx)
        ∧ mn ∈ ([3, 1, 2] : List Int) ∧ mx ∈ ([3, 1, 2] : List Int)
        ∧ ∀ x ∈ ([3, 1, 2] : List Int), mn ≤ x ∧ x ≤ mx :=
  ⟨by decide, bounds_min_max [3, 1, 2] (by decide)⟩

theorem iter_abs_pos_spec_witness :
    cf1.tileAt 1 = some ⟨[2, 1], [0, 2], [2, 3]⟩
    ∧ ((∃ tidx, multi_dim_index cf1.axis_tiles 1 = some tidx
      ∧ (Tile.mk [2, 1] [0, 2] [2, 3]).axis_starts
          = List.zipWith (fun tile_size tile_index => tile_size * tile_index)
            cf1.axis_tile_sizes tidx)
    ∧ ∃ pairs, (Tile.mk [2, 1] [0, 2] [2, 3]).iter_with_abolute_pos = some pairs
      ∧ pairs.length = (Tile.mk [2, 1] [0, 2] [2, 3]).data.length
      ∧ ∀ i, i < (Tile.mk [2, 1] [0, 2] [2, 3]).data.length →
          ∃ rel, multi_dim_index (Tile.mk [2, 1] [0, 2] [2, 3]).axis_lengths i = some rel
            ∧ pairs.getD i ([], 0)
              = (List.zipWith (fun axis_relative axis_start => axis_relative + axis_start)
                  rel (Tile.mk [2, 1] [0, 2] [2, 3]).axis_starts,
                 (Tile.mk [2, 1] [0, 2] [2, 3]).data.getD i 0)) :=
  ⟨by decide, iter_abs_pos_spec cf1 1 ⟨[2, 1], [0, 2], [2, 3]⟩ (by decide)⟩
